import Mathlib

/-!
Verification development for the Kolibri Studio front-end offline
change-tracking and synchronization layer.

Sources embedded here:
- `shared/data/constants.js` (change types, transaction source tags,
  relative tree positions);
- `channelEdit/vuex/contentNode/actions.js` (`copyContentNode`,
  `copyContentNodes`, `generateContentNodeData`, `updateContentNode`);
- `channelEdit/components/ContentNodeOptions.vue` (the tracked
  mutations `removeNode`, `copyToClipboard`, `duplicateNode`);
- the Change Log / Change Tracker / Sync Engine layer
  (`shared/data/changes.js` and its collaborators), which is not part
  of the available source tree: those definitions are modelled from
  the specification and marked `Modelled from the spec:`.
-/

namespace Studio

/-! ## Constants (`shared/data/constants.js`) -/

/-- `CHANGE_TYPES` from `shared/data/constants.js`: the five kinds of
tracked mutation. -/
inductive ChangeType where
  | CREATED
  | UPDATED
  | DELETED
  | MOVED
  | COPIED
deriving DecidableEq, Repr

/-- The numeric codes assigned in `CHANGE_TYPES`
(`CREATED: 1, UPDATED: 2, DELETED: 3, MOVED: 4, COPIED: 5`). -/
def ChangeType.code : ChangeType → Nat
  | .CREATED => 1
  | .UPDATED => 2
  | .DELETED => 3
  | .MOVED => 4
  | .COPIED => 5

/-- `IGNORED_SOURCE` from `shared/data/constants.js`: the transaction
source that is ignored when tracking the client's changes. -/
def IGNORED_SOURCE : String := "IGNORED_SOURCE"

/-- `REVERT_SOURCE = 'REVERT/' + IGNORED_SOURCE` from
`shared/data/constants.js`. -/
def REVERT_SOURCE : String := "REVERT/" ++ IGNORED_SOURCE

/-- Modelled from the spec: a transaction source is ignored when it is
the distinguished `IGNORED_SOURCE` tag or its `REVERT` variant
(spec §3: "a distinguished `IGNORED_SOURCE` tag (and its `REVERT`
variant) marks changes that must not themselves be tracked for sync or
re-reverted"). -/
def isIgnoredSource (s : String) : Bool :=
  s = IGNORED_SOURCE || s = REVERT_SOURCE

/-- `RELATIVE_TREE_POSITIONS.LAST_CHILD` from `shared/data/constants.js`. -/
def LAST_CHILD : String := "last-child"

/-! ## Chunked bulk processing

`promiseChunk(things, chunkSize, callback)` (imported by `actions.js`
from `shared/utils/helpers`, not part of the available source tree).
Modelled from the spec: "bulk endpoints accept arrays of ids bounded by
a chunk size"; "processes large copy sets in bounded-size groups".  The
model keeps the order-relevant content: the list of groups, in order,
each of size at most the chunk size. -/

/-- Modelled from the spec: split a list into consecutive chunks of at
most `n` elements (`promiseChunk` processes `things` in groups of
`chunkSize`, in order). -/
def chunkList (n : Nat) : List α → List (List α)
  | [] => []
  | x :: xs => (x :: xs.take (n - 1)) :: chunkList n (xs.drop (n - 1))
termination_by l => l.length
decreasing_by
  simp only [List.length_cons, List.length_drop]
  omega

/-! ## `copyContentNodes` / `copyContentNode` chunking (`actions.js`) -/

/-- `const chunkSize = deep ? 1 : 10;` in `copyContentNodes`
(`actions.js`). -/
def copyContentNodesChunkSize (deep : Bool) : Nat :=
  if deep then 1 else 10

/-- The chunked processing order of `copyContentNodes`:
`promiseChunk(id__in, chunkSize, idChunk => ...)` (`actions.js`). -/
def copyContentNodesPlan (id__in : List String) (deep : Bool) :
    List (List String) :=
  chunkList (copyContentNodesChunkSize deep) id__in

/-- The chunked processing order of the returned node set inside
`copyContentNode`: `promiseChunk(nodes, 10, chunk => ...)`
(`actions.js`). -/
def copyContentNodePlan (nodes : List α) : List (List α) :=
  chunkList 10 nodes

/-! ## `copyContentNode` (`actions.js`) -/

/-- A content node as returned by `ContentNode.copy`: carries its new
`id` and the `source_id` of the node it was copied from. -/
structure NodeRec where
  id : String
  source_id : String
deriving DecidableEq, Repr

/-- The `children` argument of `copyContentNode`: a tree of
`{ id, children }` descriptors. -/
inductive CopyChild where
  | node (id : String) (children : List CopyChild)
deriving Repr

/-- The `id` of a `children` descriptor. -/
def CopyChild.id : CopyChild → String
  | .node i _ => i

/-- The `children` list of a `children` descriptor. -/
def CopyChild.children : CopyChild → List CopyChild
  | .node _ c => c

/-- `copyContentNode({ id, target, position = LAST_CHILD, deep = false,
children = [] })` from `actions.js`.  `ContentNode.copy` is a
collaborator outside this file's scope and enters as the parameter
`copyFn`.  The result is `(committed, returned)`: `committed` is every
node passed to `ADD_CONTENTNODES` commits (in commit order), `returned`
is the promise's resolution value.  Per the source, when `children` is
non-empty the recursion copies each child under `nodes[0].id`, and the
destructuring `([childNodes]) => nodes.concat(childNodes)` keeps only
the first child's returned nodes. -/
def copyContentNode (copyFn : String → String → String → Bool → List NodeRec)
    (id target position : String) (deep : Bool) (children : List CopyChild) :
    Except String (List NodeRec × List NodeRec) :=
  if deep && !children.isEmpty then
    Except.error "Cannot use deep and specify children"
  else
    let nodes := copyFn id target position deep
    match children with
    | [] => Except.ok (nodes, nodes)
    | c :: cs =>
      let firstId := ((nodes.head?).map NodeRec.id).getD ""
      match ((c :: cs).attach.mapM fun x =>
          copyContentNode copyFn x.1.id firstId LAST_CHILD false
            x.1.children) with
      | Except.error e => Except.error e
      | Except.ok results =>
        let committed := nodes ++ (results.map Prod.fst).flatten
        let childNodes := ((results.head?).map Prod.snd).getD []
        Except.ok (committed, nodes ++ childNodes)
termination_by sizeOf children
decreasing_by
  rcases x with ⟨c', hc'⟩
  have h1 := List.sizeOf_lt_of_mem hc'
  cases c' with
  | node i ch =>
    simp only [CopyChild.children]
    simp only [CopyChild.node.sizeOf_spec] at h1
    omega

/-- The Local Store rows committed by running `copyContentNode` against
a starting node table: `ADD_CONTENTNODES` appends the copied nodes; an
error commits nothing. -/
def copyContentNodeState (st : List NodeRec)
    (copyFn : String → String → String → Bool → List NodeRec)
    (id target position : String) (deep : Bool)
    (children : List CopyChild) : List NodeRec :=
  match copyContentNode copyFn id target position deep children with
  | Except.error _ => st
  | Except.ok (committed, _) => st ++ committed

/-! ## `generateContentNodeData` / `updateContentNode` (`actions.js`) -/

/-- A JSON-like value, used for `thumbnail_encoding` payloads and the
`extra_fields` sub-values. -/
inductive JVal where
  | str (s : String)
  | num (n : Int)
  | boolean (b : Bool)
  | null
deriving DecidableEq, Repr

/-- `JSON.stringify` on the modelled values (used for
`thumbnail_encoding` in `generateContentNodeData`). -/
def jsonStringify : JVal → String
  | .str s => "\"" ++ s ++ "\""
  | .num n => toString n
  | .boolean true => "true"
  | .boolean false => "false"
  | .null => "null"

/-- JavaScript truthiness of a modelled JSON value, as tested by
`if (extra_fields.type)` etc. in `generateContentNodeData`. -/
def JVal.truthy : JVal → Bool
  | .str s => s ≠ ""
  | .num n => n ≠ 0
  | .boolean b => b
  | .null => false

/-- The `extra_fields` object: `type`, `m`, `n`, `randomize` sub-fields
(`none` models an absent property). -/
structure ExtraFieldsPayload where
  type : Option JVal := none
  m : Option JVal := none
  n : Option JVal := none
  randomize : Option JVal := none
deriving DecidableEq, Repr

/-- Keep a sub-field only when present and truthy, as
`if (extra_fields.type) { contentNodeData.extra_fields.type = ... }`. -/
def truthyField (v : Option JVal) : Option JVal :=
  match v with
  | some x => if x.truthy then some x else none
  | none => none

/-- The destructured argument of `generateContentNodeData`: each field
defaults to the `NOVALUE` sentinel, modelled as `none`. -/
structure UpdatePayload where
  title : Option String := none
  description : Option String := none
  thumbnail_encoding : Option JVal := none
  language : Option String := none
  license : Option String := none
  license_description : Option String := none
  copyright_holder : Option String := none
  author : Option String := none
  role_visibility : Option String := none
  aggregator : Option String := none
  provider : Option String := none
  extra_fields : Option ExtraFieldsPayload := none
  prerequisite : Option String := none
  complete : Option Bool := none
deriving DecidableEq, Repr

/-- The `contentNodeData` object built by `generateContentNodeData`:
a field is `some _` exactly when the corresponding `if (x !== NOVALUE)`
branch ran (`thumbnail_encoding` is stored stringified). -/
structure ContentNodeData where
  title : Option String := none
  description : Option String := none
  thumbnail_encoding : Option String := none
  language : Option String := none
  license : Option String := none
  license_description : Option String := none
  copyright_holder : Option String := none
  author : Option String := none
  role_visibility : Option String := none
  aggregator : Option String := none
  provider : Option String := none
  extra_fields : Option ExtraFieldsPayload := none
  prerequisite : Option String := none
  complete : Option Bool := none
  changed : Option Bool := none
deriving DecidableEq, Repr

/-- `Object.keys(contentNodeData).length` being non-zero: at least one
payload field was provided. -/
def UpdatePayload.providesAnyField (p : UpdatePayload) : Bool :=
  p.title.isSome || p.description.isSome || p.thumbnail_encoding.isSome ||
  p.language.isSome || p.license.isSome || p.license_description.isSome ||
  p.copyright_holder.isSome || p.author.isSome ||
  p.role_visibility.isSome || p.aggregator.isSome || p.provider.isSome ||
  p.extra_fields.isSome || p.prerequisite.isSome || p.complete.isSome

/-- `generateContentNodeData` from `actions.js`: copies every provided
field into `contentNodeData` (stringifying `thumbnail_encoding`,
filtering `extra_fields` to its truthy `type`/`m`/`n`/`randomize`
sub-fields) and sets `changed = true` when any field was provided. -/
def generateContentNodeData (p : UpdatePayload) : ContentNodeData where
  title := p.title
  description := p.description
  thumbnail_encoding := p.thumbnail_encoding.map jsonStringify
  language := p.language
  license := p.license
  license_description := p.license_description
  copyright_holder := p.copyright_holder
  author := p.author
  role_visibility := p.role_visibility
  aggregator := p.aggregator
  provider := p.provider
  extra_fields := p.extra_fields.map fun ef =>
    { type := truthyField ef.type
      m := truthyField ef.m
      n := truthyField ef.n
      randomize := truthyField ef.randomize }
  prerequisite := p.prerequisite
  complete := p.complete
  changed := if p.providesAnyField then some true else none

/-- The `UPDATE_CONTENTNODE` commit emitted by `updateContentNode`:
`{ id, ...contentNodeData }`. -/
structure CommitUpdate where
  id : String
  data : ContentNodeData
deriving DecidableEq, Repr

/-- `updateContentNode` from `actions.js`: throws
`ReferenceError('id must be defined to update a contentNode')` when
`id` is absent or falsy, otherwise commits
`{ id, ...generateContentNodeData(payload) }`. -/
def updateContentNode (id : Option String) (payload : UpdatePayload) :
    Except String CommitUpdate :=
  match id with
  | none => Except.error "id must be defined to update a contentNode"
  | some i =>
    if i = "" then Except.error "id must be defined to update a contentNode"
    else Except.ok ⟨i, generateContentNodeData payload⟩

/-- A materialized content node row, restricted to the fields
`generateContentNodeData` can touch. -/
structure ContentNodeEntity where
  title : String
  description : String
  thumbnail_encoding : String
  language : String
  license : String
  license_description : String
  copyright_holder : String
  author : String
  role_visibility : String
  aggregator : String
  provider : String
  extra_fields : ExtraFieldsPayload
  prerequisite : String
  complete : Bool
  changed : Bool
deriving DecidableEq, Repr

/-- Applying an `UPDATE_CONTENTNODE` commit to an entity: provided
fields overwrite, absent fields are left alone. -/
def applyContentNodeData (e : ContentNodeEntity) (d : ContentNodeData) :
    ContentNodeEntity where
  title := d.title.getD e.title
  description := d.description.getD e.description
  thumbnail_encoding := d.thumbnail_encoding.getD e.thumbnail_encoding
  language := d.language.getD e.language
  license := d.license.getD e.license
  license_description := d.license_description.getD e.license_description
  copyright_holder := d.copyright_holder.getD e.copyright_holder
  author := d.author.getD e.author
  role_visibility := d.role_visibility.getD e.role_visibility
  aggregator := d.aggregator.getD e.aggregator
  provider := d.provider.getD e.provider
  extra_fields := d.extra_fields.getD e.extra_fields
  prerequisite := d.prerequisite.getD e.prerequisite
  complete := d.complete.getD e.complete
  changed := d.changed.getD e.changed

/-! ## Change Log / Change Tracker / Sync Engine

The implementation (`shared/data/changes.js` and collaborators) is not
part of the available source tree; every definition in this section is
modelled from the specification (§3, §4.1–4.3, §8). -/

/-- An entity field name. -/
abbrev Field := String

/-- A field value. -/
abbrev Val := String

/-- Modelled from the spec: a materialized entity row holds "the
entity's current materialized field values"; `none` is an absent
field. -/
def Entity := Field → Option Val

/-- Modelled from the spec: the Local Store, "a persistent key/value
table set, keyed by `(table, key)`, holding the current materialized
state of entities". -/
def Store := String × String → Option Entity

/-- Set (or clear, with `none`) one field of an entity. -/
def Entity.setField (e : Entity) (f : Field) (v : Option Val) : Entity :=
  fun g => if g = f then v else e g

/-- Apply an update delta: each listed field is set in order. -/
def applyMods (e : Entity) (mods : List (Field × Option Val)) : Entity :=
  mods.foldl (fun acc fv => acc.setField fv.1 fv.2) e

/-- Modelled from the spec: `syncState`:
`PENDING | IN_FLIGHT | SYNCED | FAILED`. -/
inductive SyncState where
  | PENDING
  | IN_FLIGHT
  | SYNCED
  | FAILED
deriving DecidableEq, Repr

/-- Modelled from the spec: a Change Record's payload is "the delta or
full snapshot needed to replay or revert the mutation":
a `CREATED`/`COPIED` snapshot, an `UPDATED` delta with the prior field
values, a `DELETED` pre-delete snapshot, or a `MOVED` new and prior
parent/position. -/
inductive ChangePayload where
  | created (snap : Entity)
  | updated (mods olds : List (Field × Option Val))
  | deleted (oldSnap : Entity)
  | moved (parent position oldParent oldPosition : Option Val)
  | copied (snap : Entity)

/-- Modelled from the spec: a Change Record
`{table, key, type, payload, source, sequence, syncState}`
(the `type` is determined by the payload's shape, see
`ChangeRecord.type`). -/
structure ChangeRecord where
  table : String
  key : String
  payload : ChangePayload
  source : String
  sequence : Nat
  syncState : SyncState

/-- The `CHANGE_TYPES` tag carried by a record. -/
def ChangeRecord.type (r : ChangeRecord) : ChangeType :=
  match r.payload with
  | .created _ => .CREATED
  | .updated _ _ => .UPDATED
  | .deleted _ => .DELETED
  | .moved _ _ _ _ => .MOVED
  | .copied _ => .COPIED

/-- The `(table, key)` identity of the entity a record targets. -/
def ChangeRecord.entityKey (r : ChangeRecord) : String × String :=
  (r.table, r.key)

/-- Modelled from the spec: the effect of one Change Record payload on
a single entity row (`CREATED`/`COPIED` install the snapshot,
`UPDATED` applies the delta, `DELETED` removes the row, `MOVED`
rewrites the `parent`/`position` fields). -/
def applyPayloadEntity (cur : Option Entity) : ChangePayload → Option Entity
  | .created snap => some snap
  | .updated mods _ => cur.map (fun e => applyMods e mods)
  | .deleted _ => none
  | .moved p pos _ _ =>
    cur.map (fun e => (e.setField "parent" p).setField "position" pos)
  | .copied snap => some snap

/-- Modelled from the spec: the effect of one Change Record on the
Local Store; only the targeted `(table, key)` row changes. -/
def applyPayload (s : Store) (t k : String) (pl : ChangePayload) : Store :=
  fun tk => if tk = (t, k) then applyPayloadEntity (s (t, k)) pl else s tk

/-- Apply a Change Record to the Local Store. -/
def applyChange (s : Store) (r : ChangeRecord) : Store :=
  applyPayload s r.table r.key r.payload

/-- Modelled from the spec: §4.2, the inverse payload —
inverse of `CREATED` is `DELETED` of the same key, inverse of
`DELETED` is `CREATED` with the pre-delete snapshot, inverse of
`UPDATED` is `UPDATED` with the prior field values, inverse of
`MOVED` is a move back to the prior parent/position, inverse of
`COPIED` is a delete of the copy. -/
def inversePayload : ChangePayload → ChangePayload
  | .created snap => .deleted snap
  | .updated mods olds => .updated olds mods
  | .deleted oldSnap => .created oldSnap
  | .moved p pos op' opos => .moved op' opos p pos
  | .copied snap => .deleted snap

/-- Modelled from the spec: §3, the inverse Change Record, "tagged with
the `REVERT` source so they are not themselves revertible or re-synced
as forward changes". -/
def inverseRecord (r : ChangeRecord) : ChangeRecord where
  table := r.table
  key := r.key
  payload := inversePayload r.payload
  source := REVERT_SOURCE
  sequence := r.sequence
  syncState := SyncState.PENDING

/-- Modelled from the spec: a tracked mutation intent (create, update,
delete, move, copy), as issued by a State Projection action. -/
inductive Mutation where
  | create (table key : String) (snap : Entity)
  | update (table key : String) (mods : List (Field × Option Val))
  | delete (table key : String)
  | move (table key : String) (parent position : Option Val)
  | copy (table key : String) (snap : Entity)

/-- The target table of a mutation. -/
def Mutation.table : Mutation → String
  | .create t _ _ => t
  | .update t _ _ => t
  | .delete t _ => t
  | .move t _ _ _ => t
  | .copy t _ _ => t

/-- The target key of a mutation. -/
def Mutation.key : Mutation → String
  | .create _ k _ => k
  | .update _ k _ => k
  | .delete _ k => k
  | .move _ k _ _ => k
  | .copy _ k _ => k

/-- Modelled from the spec: build the Change Record payload for a
mutation against the current store, capturing the prior values needed
to revert (`none` when the mutation does not apply: a create/copy of an
existing key, or an update/delete/move of an absent key, is a local
no-op). -/
def mkPayload (m : Mutation) (s : Store) : Option ChangePayload :=
  match m with
  | .create t k snap =>
    match s (t, k) with
    | none => some (.created snap)
    | some _ => none
  | .update t k mods =>
    (s (t, k)).map fun e => .updated mods (mods.map fun fv => (fv.1, e fv.1))
  | .delete t k => (s (t, k)).map fun e => .deleted e
  | .move t k p pos =>
    (s (t, k)).map fun e => .moved p pos (e "parent") (e "position")
  | .copy t k snap =>
    match s (t, k) with
    | none => some (.copied snap)
    | some _ => none

/-- Modelled from the spec: the process-wide shared state — the Local
Store, the append-only Change Log, and the next `sequence` to assign
("strictly increasing, assigned at append time"). -/
structure SysState where
  store : Store
  log : List ChangeRecord
  nextSeq : Nat

/-- The empty initial state. -/
def initState : SysState where
  store := fun _ => none
  log := []
  nextSeq := 0

/-- Modelled from the spec: §4.1, `append(change)` — assign the next
`sequence` and store the record atomically with the Local Store write
it accompanies. -/
def applyMutation (st : SysState) (src : String) (m : Mutation) : SysState :=
  match mkPayload m st.store with
  | none => st
  | some pl =>
    let r : ChangeRecord :=
      ⟨m.table, m.key, pl, src, st.nextSeq, SyncState.PENDING⟩
    ⟨applyChange st.store r, st.log ++ [r], st.nextSeq + 1⟩

/-- Run a list of tracked mutations, each tagged with its transaction
source. -/
def run (st : SysState) (muts : List (String × Mutation)) : SysState :=
  muts.foldl (fun acc sm => applyMutation acc sm.1 sm.2) st

/-- Modelled from the spec: §4.2, `begin()` returns a Session whose
watermark is the sequence the next appended record will receive (so
that exactly the records appended during the session satisfy
`sequence ≥ watermark`). -/
def beginSession (st : SysState) : Nat := st.nextSeq

/-- Modelled from the spec: §4.2, the closed set of Change Records
since the watermark, excluding entries tagged with an ignored source
(which covers already-`REVERT`-sourced entries). -/
def revertSelection (w : Nat) (log : List ChangeRecord) :
    List ChangeRecord :=
  log.filter fun r => decide (w ≤ r.sequence) && !isIgnoredSource r.source

/-- Modelled from the spec: §4.2, the inverse Change Records emitted by
`Session.revert()`, in reverse chronological order. -/
def revertEmitted (w : Nat) (log : List ChangeRecord) :
    List ChangeRecord :=
  (revertSelection w log).reverse.map inverseRecord

/-- Append an already-built Change Record (assigning the next
`sequence`) and apply it to the Local Store. -/
def appendApplied (st : SysState) (r : ChangeRecord) : SysState :=
  let r' : ChangeRecord :=
    ⟨r.table, r.key, r.payload, r.source, st.nextSeq, r.syncState⟩
  ⟨applyChange st.store r', st.log ++ [r'], st.nextSeq + 1⟩

/-- Modelled from the spec: §4.2, `Session.revert()` — recompute the
selection at revert time, emit the inverse records in reverse order,
and apply/append each one. -/
def sessionRevert (w : Nat) (st : SysState) : SysState :=
  (revertEmitted w st.log).foldl appendApplied st

/-- The store produced by folding the emitted inverse payloads over the
current store (the store component of `sessionRevert`). -/
def revertStoreOnly (w : Nat) (st : SysState) : Store :=
  (revertEmitted w st.log).foldl applyChange st.store

/-- Modelled from the spec: a system-level step — a tracked mutation or
a session revert. -/
inductive SysOp where
  | mutate (src : String) (m : Mutation)
  | revert (w : Nat)

/-- Run a list of system-level steps. -/
def runOps (st : SysState) (ops : List SysOp) : SysState :=
  ops.foldl
    (fun acc op =>
      match op with
      | .mutate src m => applyMutation acc src m
      | .revert w => sessionRevert w acc)
    st

/-- Modelled from the spec: the per-entity replay of the Change Log —
"Change Records for a given entity key, applied in ascending `sequence`
order, reconstruct the entity's current state exactly". -/
def entityReplay (t k : String) (log : List ChangeRecord) :
    Option Entity :=
  (log.filter fun r => r.table = t && r.key = k).foldl
    (fun acc r => applyPayloadEntity acc r.payload) none

/-- Modelled from the spec: the records the Sync Engine tracks for
sync — entries whose source is not ignored. -/
def syncTracked (log : List ChangeRecord) : List ChangeRecord :=
  log.filter fun r => !isIgnoredSource r.source

/-- The sequence invariant: all log sequences are below `nextSeq` and
strictly ascending in log order. -/
def seqOrdered (st : SysState) : Prop :=
  (∀ x ∈ st.log, x.sequence < st.nextSeq) ∧
    st.log.Pairwise fun a b => a.sequence < b.sequence

/-! ## Revert emission shape (C3) and source tagging (C4) -/

/-- The claim's wording of the per-type inverse, for comparison with
the spec-modelled `inversePayload`: the inverse of `CREATED` is a
delete, of `DELETED` a create with the pre-delete snapshot, of
`UPDATED` an update with the prior field values, of `MOVED` a move
back to the prior parent/position, of `COPIED` a delete of the copy. -/
def InverseSpec : ChangePayload → ChangePayload → Prop
  | .created _, q => ∃ snap, q = .deleted snap
  | .updated mods olds, q => q = .updated olds mods
  | .deleted oldSnap, q => q = .created oldSnap
  | .moved p pos op' opos, q => q = .moved op' opos p pos
  | .copied _, q => ∃ snap, q = .deleted snap

/-! ## Sync Engine drain (C6)

Modelled from the spec §4.3: the drain loop "selects `PENDING` records
in ascending `sequence` ... any entity touched again locally after
being queued is still synced in original order (no reordering)".  A
failure oracle `fails` stands for the Remote API outcome; once a
record of an entity fails (or is already `FAILED`), later records of
that entity are not sent and stay `PENDING`. -/

/-- Modelled from the spec: §4.3, one drain pass over the log in order,
carrying the set of entities blocked by an earlier failure. -/
def drainGo (fails : ChangeRecord → Bool) :
    List ChangeRecord → List (String × String) → List ChangeRecord
  | [], _ => []
  | r :: rest, blocked =>
    if r.syncState = SyncState.PENDING then
      if r.entityKey ∈ blocked then r :: drainGo fails rest blocked
      else if fails r then
        { r with syncState := SyncState.FAILED } ::
          drainGo fails rest (r.entityKey :: blocked)
      else
        { r with syncState := SyncState.SYNCED } :: drainGo fails rest blocked
    else if r.syncState = SyncState.FAILED then
      r :: drainGo fails rest (r.entityKey :: blocked)
    else r :: drainGo fails rest blocked

/-- Modelled from the spec: §4.3, a drain pass starting with no blocked
entities. -/
def drain (fails : ChangeRecord → Bool) (log : List ChangeRecord) :
    List ChangeRecord :=
  drainGo fails log []

/-! ## Remote create idempotence (C7)

Modelled from the spec §4.3: "replaying the same `CREATED`/`COPIED`
record twice (e.g., after a partial failure + retry) must not duplicate
the entity — achieved by the client pre-assigning stable local ids
before any network call, and the server treating duplicate-id create as
upsert."  The server table is a plain row list so that duplication is
expressible; only the create-family endpoints matter for this claim,
other change types are out of its scope and modelled as no-ops. -/

/-- Modelled from the spec: the server-side create endpoint; a
duplicate-id create is treated as an upsert. -/
def serverCreate (db : List (String × Entity)) (key : String)
    (snap : Entity) : List (String × Entity) :=
  if db.any fun row => row.1 = key then
    db.map fun row => if row.1 = key then (key, snap) else row
  else db ++ [(key, snap)]

/-- Modelled from the spec: replaying a Change Record against the
Remote API; `CREATED`/`COPIED` records hit the create endpoint with the
client-pre-assigned stable id (the record's `key`). -/
def serverReplay (db : List (String × Entity)) (r : ChangeRecord) :
    List (String × Entity) :=
  match r.payload with
  | .created snap => serverCreate db r.key snap
  | .copied snap => serverCreate db r.key snap
  | .updated _ _ => db
  | .deleted _ => db
  | .moved _ _ _ _ => db

/-- The number of server rows holding the entity with the given id. -/
def countRows (db : List (String × Entity)) (key : String) : Nat :=
  (db.filter fun row => row.1 = key).length

/-! ## Zero-argument revert exposure (C8)

Modelled from the spec §6 ("Revert is exposed to callers as a
zero-argument operation returned from any tracked mutation") and the
three `withChangeTracker`-wrapped operations of
`ContentNodeOptions.vue`, each of which wires a snackbar
`actionCallback: () => changeTracker.revert()`. -/

/-- Modelled from the spec: the session handle `withChangeTracker`
passes to the wrapped operation; `revert` recomputes the selection
since the captured watermark at invocation time. -/
structure ChangeTracker where
  watermark : Nat

/-- `changeTracker.revert()`. -/
def ChangeTracker.revert (ct : ChangeTracker) : SysState → SysState :=
  sessionRevert ct.watermark

/-- `removeNode`: `actionCallback: () => changeTracker.revert()`
(`ContentNodeOptions.vue`, the "Undo" affordance of the remove
snackbar). -/
def removeNodeUndo (ct : ChangeTracker) : Unit → SysState → SysState :=
  fun _ => ct.revert

/-- `copyToClipboard`: the "Cancel" affordance callback
`() => changeTracker.revert()`. -/
def copyToClipboardCancel (ct : ChangeTracker) :
    Unit → SysState → SysState :=
  fun _ => ct.revert

/-- `copyToClipboard`: the "Undo" affordance callback
`() => changeTracker.revert()`. -/
def copyToClipboardUndo (ct : ChangeTracker) :
    Unit → SysState → SysState :=
  fun _ => ct.revert

/-- `duplicateNode`: the "Cancel" affordance callback
`() => changeTracker.revert()`. -/
def duplicateNodeCancel (ct : ChangeTracker) :
    Unit → SysState → SysState :=
  fun _ => ct.revert

/-- `duplicateNode`: the "Undo" affordance callback
`() => changeTracker.revert()`. -/
def duplicateNodeUndo (ct : ChangeTracker) :
    Unit → SysState → SysState :=
  fun _ => ct.revert

/-! ## Theorems -/

theorem chunkList_nil (n : Nat) : chunkList n ([] : List α) = [] := by
  simp [chunkList]

theorem chunkList_join (n : Nat) (l : List α) : (chunkList n l).flatten = l := by
  induction l using chunkList.induct n with
  | case1 => simp [chunkList]
  | case2 x xs ih =>
    simp only [chunkList, List.flatten_cons, ih]
    simp [List.take_append_drop]

theorem chunkList_length_le (n : Nat) (hn : 0 < n) (l : List α) :
    ∀ c ∈ chunkList n l, c.length ≤ n := by
  induction l using chunkList.induct n with
  | case1 => intro c hc; simp [chunkList] at hc
  | case2 x xs ih =>
    intro c hc
    simp only [chunkList, List.mem_cons] at hc
    rcases hc with h | h
    · subst h
      simp only [List.length_cons]
      have := List.length_take_le (n - 1) xs
      omega
    · exact ih c h

theorem CopyChild.sizeOf_children_lt (c : CopyChild) :
    sizeOf c.children < sizeOf c := by
  cases c with
  | node i ch => simp [CopyChild.children]

/-! ## Claim theorems: C5 and C9 -/

/-- C5: bulk operations process ids in chunks bounded by a fixed chunk
size of 10, except that deep copies use chunk size 1: in
`copyContentNodes` the chunk size is 1 when `deep` is true and 10
otherwise, and within `copyContentNode` the returned node set is
processed in chunks of 10.  Chunks cover the input exactly and in
order. -/
theorem copyContentNodes_chunk_sizes (deep : Bool) (ids : List String)
    (nodes : List NodeRec) :
    copyContentNodesChunkSize true = 1 ∧
    copyContentNodesChunkSize false = 10 ∧
    (∀ c ∈ copyContentNodesPlan ids deep,
      c.length ≤ copyContentNodesChunkSize deep) ∧
    (copyContentNodesPlan ids deep).flatten = ids ∧
    (∀ c ∈ copyContentNodePlan nodes, c.length ≤ 10) ∧
    (copyContentNodePlan nodes).flatten = nodes := by
  refine ⟨rfl, rfl, ?_, chunkList_join _ _, ?_, chunkList_join _ _⟩
  · exact chunkList_length_le _ (by cases deep <;> simp [copyContentNodesChunkSize]) _
  · exact chunkList_length_le _ (by norm_num) _

/-- Witness for C5 at concrete inputs. -/
theorem copyContentNodes_chunk_sizes_witness :
    (["a"].length ≤ copyContentNodesChunkSize true ∧
      (copyContentNodesPlan ["a", "b"] true).flatten = ["a", "b"]) ∧
    ([NodeRec.mk "x" "s"].length ≤ 10 ∧
      (copyContentNodePlan [NodeRec.mk "x" "s"]).flatten
        = [NodeRec.mk "x" "s"]) := by
  have h := copyContentNodes_chunk_sizes true ["a", "b"] [NodeRec.mk "x" "s"]
  refine ⟨⟨h.2.2.1 ["a"] ?_, h.2.2.2.1⟩, ⟨h.2.2.2.2.1 [NodeRec.mk "x" "s"] ?_, h.2.2.2.2.2⟩⟩
  · simp [copyContentNodesPlan, copyContentNodesChunkSize, chunkList]
  · simp [copyContentNodePlan, chunkList]

/-- C9: calling `copyContentNode` with `deep = true` and a non-empty
`children` list throws `TypeError('Cannot use deep and specify
children')` before performing any copy or store mutation, so the
committed Local Store state is unchanged. -/
theorem copyContentNode_deep_children_error
    (copyFn : String → String → String → Bool → List NodeRec)
    (id target position : String) (children : List CopyChild)
    (h : children ≠ []) :
    copyContentNode copyFn id target position true children =
      Except.error "Cannot use deep and specify children" ∧
    ∀ st, copyContentNodeState st copyFn id target position true children
      = st := by
  have hc : (true && !children.isEmpty) = true := by
    simp [List.isEmpty_iff, h]
  have h1 : copyContentNode copyFn id target position true children =
      Except.error "Cannot use deep and specify children" := by
    rw [copyContentNode]
    simp only [hc, if_true]
  exact ⟨h1, fun st => by simp [copyContentNodeState, h1]⟩

/-- Witness for C9 at a concrete input. -/
theorem copyContentNode_deep_children_error_witness :
    copyContentNode (fun _ _ _ _ => []) "n1" "t" LAST_CHILD true
        [CopyChild.node "c" []] =
      Except.error "Cannot use deep and specify children" ∧
    copyContentNodeState [] (fun _ _ _ _ => []) "n1" "t" LAST_CHILD true
        [CopyChild.node "c" []] = [] := by
  have h := copyContentNode_deep_children_error (fun _ _ _ _ => [])
    "n1" "t" LAST_CHILD [CopyChild.node "c" []] (by simp)
  exact ⟨h.1, h.2 []⟩

theorem opt_eq_none_of_isSome_false {α : Type _} {o : Option α}
    (h : o.isSome = false) : o = none := by
  cases o <;> simp_all

/-- C10: `updateContentNode` only touches the fields explicitly present
in its payload: for a defined `id` the committed update is exactly
`generateContentNodeData payload`, whose fields are `some` exactly for
the provided payload fields; applying the commit leaves every
unprovided field of the entity unchanged; and whenever at least one
field is provided the commit additionally sets `changed = true` (and
when none is, the entity is untouched entirely). -/
theorem updateContentNode_touches_only_payload (i : String)
    (p : UpdatePayload) (e : ContentNodeEntity) (hi : i ≠ "") :
    (updateContentNode (some i) p
      = Except.ok ⟨i, generateContentNodeData p⟩) ∧
    ((generateContentNodeData p).title.isSome = p.title.isSome ∧
     (generateContentNodeData p).description.isSome
        = p.description.isSome ∧
     (generateContentNodeData p).thumbnail_encoding.isSome
        = p.thumbnail_encoding.isSome ∧
     (generateContentNodeData p).language.isSome = p.language.isSome ∧
     (generateContentNodeData p).license.isSome = p.license.isSome ∧
     (generateContentNodeData p).license_description.isSome
        = p.license_description.isSome ∧
     (generateContentNodeData p).copyright_holder.isSome
        = p.copyright_holder.isSome ∧
     (generateContentNodeData p).author.isSome = p.author.isSome ∧
     (generateContentNodeData p).role_visibility.isSome
        = p.role_visibility.isSome ∧
     (generateContentNodeData p).aggregator.isSome
        = p.aggregator.isSome ∧
     (generateContentNodeData p).provider.isSome = p.provider.isSome ∧
     (generateContentNodeData p).extra_fields.isSome
        = p.extra_fields.isSome ∧
     (generateContentNodeData p).prerequisite.isSome
        = p.prerequisite.isSome ∧
     (generateContentNodeData p).complete.isSome = p.complete.isSome) ∧
    ((p.title = none →
        (applyContentNodeData e (generateContentNodeData p)).title
          = e.title) ∧
     (p.description = none →
        (applyContentNodeData e (generateContentNodeData p)).description
          = e.description) ∧
     (p.thumbnail_encoding = none →
        (applyContentNodeData e
            (generateContentNodeData p)).thumbnail_encoding
          = e.thumbnail_encoding) ∧
     (p.language = none →
        (applyContentNodeData e (generateContentNodeData p)).language
          = e.language) ∧
     (p.license = none →
        (applyContentNodeData e (generateContentNodeData p)).license
          = e.license) ∧
     (p.license_description = none →
        (applyContentNodeData e
            (generateContentNodeData p)).license_description
          = e.license_description) ∧
     (p.copyright_holder = none →
        (applyContentNodeData e
            (generateContentNodeData p)).copyright_holder
          = e.copyright_holder) ∧
     (p.author = none →
        (applyContentNodeData e (generateContentNodeData p)).author
          = e.author) ∧
     (p.role_visibility = none →
        (applyContentNodeData e
            (generateContentNodeData p)).role_visibility
          = e.role_visibility) ∧
     (p.aggregator = none →
        (applyContentNodeData e (generateContentNodeData p)).aggregator
          = e.aggregator) ∧
     (p.provider = none →
        (applyContentNodeData e (generateContentNodeData p)).provider
          = e.provider) ∧
     (p.extra_fields = none →
        (applyContentNodeData e (generateContentNodeData p)).extra_fields
          = e.extra_fields) ∧
     (p.prerequisite = none →
        (applyContentNodeData e (generateContentNodeData p)).prerequisite
          = e.prerequisite) ∧
     (p.complete = none →
        (applyContentNodeData e (generateContentNodeData p)).complete
          = e.complete)) ∧
    (p.providesAnyField = true →
      (applyContentNodeData e (generateContentNodeData p)).changed
        = true) ∧
    (p.providesAnyField = false →
      applyContentNodeData e (generateContentNodeData p) = e) := by
  refine ⟨by simp [updateContentNode, hi], ?_, ?_, ?_, ?_⟩
  · simp [generateContentNodeData]
  · refine ⟨?_, ?_, ?_, ?_, ?_, ?_, ?_, ?_, ?_, ?_, ?_, ?_, ?_, ?_⟩ <;>
      · intro h
        simp [applyContentNodeData, generateContentNodeData, h]
  · intro h
    simp [applyContentNodeData, generateContentNodeData, h]
  · intro h
    simp only [UpdatePayload.providesAnyField, Bool.or_eq_false_iff] at h
    obtain ⟨⟨⟨⟨⟨⟨⟨⟨⟨⟨⟨⟨⟨h1, h2⟩, h3⟩, h4⟩, h5⟩, h6⟩, h7⟩, h8⟩, h9⟩,
      h10⟩, h11⟩, h12⟩, h13⟩, h14⟩ := h
    cases e
    simp [applyContentNodeData, generateContentNodeData,
      UpdatePayload.providesAnyField,
      opt_eq_none_of_isSome_false h1, opt_eq_none_of_isSome_false h2,
      opt_eq_none_of_isSome_false h3, opt_eq_none_of_isSome_false h4,
      opt_eq_none_of_isSome_false h5, opt_eq_none_of_isSome_false h6,
      opt_eq_none_of_isSome_false h7, opt_eq_none_of_isSome_false h8,
      opt_eq_none_of_isSome_false h9, opt_eq_none_of_isSome_false h10,
      opt_eq_none_of_isSome_false h11, opt_eq_none_of_isSome_false h12,
      opt_eq_none_of_isSome_false h13, opt_eq_none_of_isSome_false h14]

/-- Witness for C10 at concrete inputs: an empty payload leaves a
concrete entity untouched; a payload providing only `title` leaves
`description` untouched and sets `changed`. -/
theorem updateContentNode_touches_only_payload_witness :
    (updateContentNode (some "x") {}
      = Except.ok ⟨"x", generateContentNodeData {}⟩) ∧
    (applyContentNodeData
        ⟨"t", "d", "te", "lg", "li", "ld", "ch", "au", "rv", "ag", "pr",
          {}, "pq", false, false⟩ (generateContentNodeData {})
      = ⟨"t", "d", "te", "lg", "li", "ld", "ch", "au", "rv", "ag", "pr",
          {}, "pq", false, false⟩) ∧
    ((applyContentNodeData
        ⟨"t", "d", "te", "lg", "li", "ld", "ch", "au", "rv", "ag", "pr",
          {}, "pq", false, false⟩
        (generateContentNodeData { title := some "T" })).description
      = "d") ∧
    ((applyContentNodeData
        ⟨"t", "d", "te", "lg", "li", "ld", "ch", "au", "rv", "ag", "pr",
          {}, "pq", false, false⟩
        (generateContentNodeData { title := some "T" })).changed
      = true) := by
  have h0 := updateContentNode_touches_only_payload "x" {}
    ⟨"t", "d", "te", "lg", "li", "ld", "ch", "au", "rv", "ag", "pr",
      {}, "pq", false, false⟩ (by decide)
  have h1 := updateContentNode_touches_only_payload "x"
    { title := some "T" }
    ⟨"t", "d", "te", "lg", "li", "ld", "ch", "au", "rv", "ag", "pr",
      {}, "pq", false, false⟩ (by decide)
  exact ⟨h0.1, h0.2.2.2.2 (by decide), h1.2.2.1.2.1 rfl,
    h1.2.2.2.1 (by decide)⟩

/-! ## Revert correctness (C1, C3) -/

theorem applyMods_not_mem (mods : List (Field × Option Val)) (e : Entity)
    (g : Field) (h : g ∉ mods.map Prod.fst) : applyMods e mods g = e g := by
  induction mods generalizing e with
  | nil => rfl
  | cons fv rest ih =>
    simp only [List.map_cons, List.mem_cons, not_or] at h
    rw [applyMods, List.foldl_cons]
    have := ih (Entity.setField e fv.1 fv.2) h.2
    rw [applyMods] at this
    rw [this, Entity.setField, if_neg h.1]

theorem applyMods_restore_aux (mods : List (Field × Option Val))
    (e e' : Entity) (h : ∀ g, g ∉ mods.map Prod.fst → e' g = e g) :
    applyMods e' (mods.map fun fv => (fv.1, e fv.1)) = e := by
  induction mods generalizing e' with
  | nil =>
    funext g
    exact h g (by simp)
  | cons fv rest ih =>
    rw [List.map_cons, applyMods, List.foldl_cons]
    have := ih (Entity.setField e' fv.1 (e fv.1)) ?_
    · rw [applyMods] at this
      exact this
    · intro g hg
      rw [Entity.setField]
      by_cases hgf : g = fv.1
      · rw [if_pos hgf, hgf]
      · rw [if_neg hgf]
        exact h g (by simp [hgf, hg])

theorem applyMods_restore (e : Entity) (mods : List (Field × Option Val)) :
    applyMods (applyMods e mods) (mods.map fun fv => (fv.1, e fv.1)) = e :=
  applyMods_restore_aux mods e (applyMods e mods)
    (fun g hg => applyMods_not_mem mods e g hg)

theorem moved_restore (e : Entity) (p pos : Option Val) :
    (((e.setField "parent" p).setField "position" pos).setField
        "parent" (e "parent")).setField "position" (e "position") = e := by
  funext g
  simp only [Entity.setField]
  by_cases h1 : g = "position"
  · simp [h1]
  · by_cases h2 : g = "parent" <;> simp [h1, h2]

/-- Applying a mutation's Change Record and then its inverse restores
the Local Store exactly. -/
theorem mkPayload_cancel (s : Store) (m : Mutation) (pl : ChangePayload)
    (h : mkPayload m s = some pl) :
    applyPayload (applyPayload s m.table m.key pl) m.table m.key
      (inversePayload pl) = s := by
  cases m with
  | create t k snap =>
    rcases hs : s (t, k) with _ | e
    · rw [mkPayload, hs] at h
      injection h with h
      subst h
      funext tk
      by_cases htk : tk = (t, k) <;>
        simp [applyPayload, applyPayloadEntity, inversePayload,
          Mutation.table, Mutation.key, htk, hs]
    · rw [mkPayload, hs] at h
      exact absurd h (by simp)
  | copy t k snap =>
    rcases hs : s (t, k) with _ | e
    · rw [mkPayload, hs] at h
      injection h with h
      subst h
      funext tk
      by_cases htk : tk = (t, k) <;>
        simp [applyPayload, applyPayloadEntity, inversePayload,
          Mutation.table, Mutation.key, htk, hs]
    · rw [mkPayload, hs] at h
      exact absurd h (by simp)
  | update t k mods =>
    rcases hs : s (t, k) with _ | e
    · rw [mkPayload, hs] at h
      exact absurd h (by simp)
    · rw [mkPayload, hs] at h
      injection h with h
      subst h
      funext tk
      by_cases htk : tk = (t, k)
      · simp [applyPayload, applyPayloadEntity, inversePayload,
          Mutation.table, Mutation.key, htk, hs, applyMods_restore]
      · simp [applyPayload, applyPayloadEntity, inversePayload,
          Mutation.table, Mutation.key, htk]
  | delete t k =>
    rcases hs : s (t, k) with _ | e
    · rw [mkPayload, hs] at h
      exact absurd h (by simp)
    · rw [mkPayload, hs] at h
      injection h with h
      subst h
      funext tk
      by_cases htk : tk = (t, k) <;>
        simp [applyPayload, applyPayloadEntity, inversePayload,
          Mutation.table, Mutation.key, htk, hs]
  | move t k p pos =>
    rcases hs : s (t, k) with _ | e
    · rw [mkPayload, hs] at h
      exact absurd h (by simp)
    · rw [mkPayload, hs] at h
      injection h with h
      subst h
      funext tk
      by_cases htk : tk = (t, k)
      · simp [applyPayload, applyPayloadEntity, inversePayload,
          Mutation.table, Mutation.key, htk, hs, moved_restore]
      · simp [applyPayload, applyPayloadEntity, inversePayload,
          Mutation.table, Mutation.key, htk]

theorem foldl_appendApplied_store (rs : List ChangeRecord) (st : SysState) :
    (rs.foldl appendApplied st).store = rs.foldl applyChange st.store := by
  induction rs generalizing st with
  | nil => rfl
  | cons r rest ih =>
    rw [List.foldl_cons, List.foldl_cons, ih]
    rfl

theorem sessionRevert_store (w : Nat) (st : SysState) :
    (sessionRevert w st).store = revertStoreOnly w st :=
  foldl_appendApplied_store _ _

theorem applyMutation_nextSeq_le (st : SysState) (src : String)
    (m : Mutation) : st.nextSeq ≤ (applyMutation st src m).nextSeq := by
  rw [applyMutation]
  cases mkPayload m st.store <;> simp

theorem revertStoreOnly_run (w : Nat) (muts : List (String × Mutation))
    (st : SysState) (hw : w ≤ st.nextSeq)
    (hsrc : ∀ sm ∈ muts, isIgnoredSource sm.1 = false) :
    revertStoreOnly w (run st muts) = revertStoreOnly w st := by
  induction muts generalizing st with
  | nil => rfl
  | cons sm rest ih =>
    rw [run, List.foldl_cons]
    have hrun : (rest.foldl (fun acc sm => applyMutation acc sm.1 sm.2)
        (applyMutation st sm.1 sm.2)) = run (applyMutation st sm.1 sm.2) rest := rfl
    rw [hrun]
    have hw1 : w ≤ (applyMutation st sm.1 sm.2).nextSeq :=
      le_trans hw (applyMutation_nextSeq_le st sm.1 sm.2)
    rw [ih (applyMutation st sm.1 sm.2) hw1
      (fun x hx => hsrc x (List.mem_cons_of_mem _ hx))]
    rcases hpl : mkPayload sm.2 st.store with _ | pl
    · rw [applyMutation, hpl]
    · have hst1 : applyMutation st sm.1 sm.2 =
          ⟨applyChange st.store
              ⟨sm.2.table, sm.2.key, pl, sm.1, st.nextSeq, SyncState.PENDING⟩,
            st.log ++ [⟨sm.2.table, sm.2.key, pl, sm.1, st.nextSeq,
              SyncState.PENDING⟩],
            st.nextSeq + 1⟩ := by
        rw [applyMutation, hpl]
      rw [hst1, revertStoreOnly, revertStoreOnly]
      have hpass : (decide (w ≤ st.nextSeq) &&
          !isIgnoredSource sm.1) = true := by
        rw [hsrc sm (List.mem_cons_self _ _)]
        simp [hw]
      rw [revertEmitted, revertEmitted, revertSelection, revertSelection]
      simp only [List.filter_append, List.filter_cons, List.filter_nil]
      rw [if_pos hpass]
      simp only [List.reverse_append, List.reverse_cons,
        List.reverse_nil, List.nil_append, List.singleton_append,
        List.map_cons, List.foldl_cons]
      have hcancel : applyChange
          (applyChange st.store
            ⟨sm.2.table, sm.2.key, pl, sm.1, st.nextSeq, SyncState.PENDING⟩)
          (inverseRecord
            ⟨sm.2.table, sm.2.key, pl, sm.1, st.nextSeq, SyncState.PENDING⟩)
          = st.store := mkPayload_cancel st.store sm.2 pl hpl
      rw [hcancel]

/-- C1: after any sequence of tracked mutations followed by a single
`revert()` of the session begun beforehand, the Local Store equals the
state it had immediately before the session began (no concurrent
session intervening; every tracked mutation carries a non-ignored
source, and the pre-session log is sequence-bounded by the session
watermark). -/
theorem session_revert_restores_store (st : SysState)
    (muts : List (String × Mutation))
    (hbound : ∀ r ∈ st.log, r.sequence < st.nextSeq)
    (hsrc : ∀ sm ∈ muts, isIgnoredSource sm.1 = false) :
    (sessionRevert (beginSession st) (run st muts)).store = st.store := by
  rw [sessionRevert_store, beginSession,
    revertStoreOnly_run st.nextSeq muts st (le_refl _) hsrc]
  have hsel : revertSelection st.nextSeq st.log = [] := by
    rw [revertSelection, List.filter_eq_nil_iff]
    intro r hr
    have := hbound r hr
    simp [Nat.not_le.mpr this]
  rw [revertStoreOnly, revertEmitted, hsel]
  rfl

/-- Witness for C1: one tracked create against the empty state, then
revert, restores the empty store. -/
theorem session_revert_restores_store_witness :
    (sessionRevert (beginSession initState)
        (run initState
          [("local",
            Mutation.create "contentnode" "n1" fun _ => none)])).store
      = initState.store := by
  have h := session_revert_restores_store initState
    [("local", Mutation.create "contentnode" "n1" fun _ => none)]
    (by intro r hr; simp [initState] at hr)
    (by
      intro sm hsm
      rw [List.mem_singleton] at hsm
      subst hsm
      decide)
  exact h

/-! ## The Change Log as source of truth (C2) -/

theorem entityReplay_append (t k : String) (log : List ChangeRecord)
    (r : ChangeRecord) :
    entityReplay t k (log ++ [r]) =
      if r.table = t ∧ r.key = k then
        applyPayloadEntity (entityReplay t k log) r.payload
      else entityReplay t k log := by
  rw [entityReplay, List.filter_append, List.foldl_append]
  by_cases hc : r.table = t ∧ r.key = k
  · rw [if_pos hc]
    have : List.filter (fun r => r.table = t && r.key = k) [r] = [r] := by
      simp [hc.1, hc.2]
    rw [this, List.foldl_cons, List.foldl_nil]
    rfl
  · rw [if_neg hc]
    have : List.filter (fun r => r.table = t && r.key = k) [r] = [] := by
      rcases not_and_or.mp hc with h | h <;> simp [h]
    rw [this, List.foldl_nil]
    rfl

theorem applyChange_lookup (s : Store) (r : ChangeRecord) (t k : String) :
    applyChange s r (t, k) =
      if r.table = t ∧ r.key = k then
        applyPayloadEntity (s (r.table, r.key)) r.payload
      else s (t, k) := by
  rw [applyChange, applyPayload]
  by_cases hc : r.table = t ∧ r.key = k
  · rw [if_pos hc, if_pos]
    exact Prod.ext hc.1.symm hc.2.symm
  · rw [if_neg hc, if_neg]
    intro heq
    rcases Prod.mk.injEq _ _ _ _ ▸ heq with ⟨h1, h2⟩
    exact hc ⟨h1.symm, h2.symm⟩

/-- The Local Store row is the per-entity replay of the log: one
appended-and-applied record preserves this. -/
theorem inv_applied_record (st : SysState) (r : ChangeRecord)
    (hinv : ∀ t k, st.store (t, k) = entityReplay t k st.log)
    (t k : String) :
    applyChange st.store r (t, k) = entityReplay t k (st.log ++ [r]) := by
  rw [entityReplay_append, applyChange_lookup]
  by_cases hc : r.table = t ∧ r.key = k
  · rw [if_pos hc, if_pos hc, hinv r.table r.key, hc.1, hc.2]
  · rw [if_neg hc, if_neg hc, hinv t k]

theorem inv_applyMutation (st : SysState) (src : String) (m : Mutation)
    (hinv : ∀ t k, st.store (t, k) = entityReplay t k st.log)
    (t k : String) :
    (applyMutation st src m).store (t, k)
      = entityReplay t k (applyMutation st src m).log := by
  rcases hpl : mkPayload m st.store with _ | pl
  · rw [applyMutation, hpl]
    exact hinv t k
  · rw [applyMutation, hpl]
    exact inv_applied_record st _ hinv t k

theorem inv_foldl_appendApplied (rs : List ChangeRecord) (st : SysState)
    (hinv : ∀ t k, st.store (t, k) = entityReplay t k st.log) :
    ∀ t k, (rs.foldl appendApplied st).store (t, k)
      = entityReplay t k (rs.foldl appendApplied st).log := by
  induction rs generalizing st with
  | nil => exact hinv
  | cons r rest ih =>
    rw [List.foldl_cons]
    exact ih (appendApplied st r)
      (fun t k => inv_applied_record st _ hinv t k)

theorem inv_runOps (ops : List SysOp) (st : SysState)
    (hinv : ∀ t k, st.store (t, k) = entityReplay t k st.log) :
    ∀ t k, (runOps st ops).store (t, k)
      = entityReplay t k (runOps st ops).log := by
  induction ops generalizing st with
  | nil => exact hinv
  | cons op rest ih =>
    rw [runOps, List.foldl_cons]
    match op with
    | .mutate src m =>
      exact ih (applyMutation st src m) (inv_applyMutation st src m hinv)
    | .revert w =>
      exact ih (sessionRevert w st) (inv_foldl_appendApplied _ st hinv)

theorem seq_bound_pairwise_applied (st : SysState) (r : ChangeRecord)
    (h : (∀ x ∈ st.log, x.sequence < st.nextSeq) ∧
      st.log.Pairwise fun a b => a.sequence < b.sequence)
    (hn : r.sequence = st.nextSeq) :
    (∀ x ∈ st.log ++ [r], x.sequence < st.nextSeq + 1) ∧
      (st.log ++ [r]).Pairwise fun a b => a.sequence < b.sequence := by
  constructor
  · intro x hx
    rcases List.mem_append.mp hx with hx | hx
    · exact Nat.lt_succ_of_lt (h.1 x hx)
    · rw [List.mem_singleton] at hx
      subst hx
      rw [hn]
      exact Nat.lt_succ_self _
  · rw [List.pairwise_append]
    exact ⟨h.2, List.pairwise_singleton _ _, by
      intro a ha b hb
      rw [List.mem_singleton] at hb
      subst hb
      rw [hn]
      exact h.1 a ha⟩

theorem seqOrdered_applyMutation (st : SysState) (src : String)
    (m : Mutation) (h : seqOrdered st) :
    seqOrdered (applyMutation st src m) := by
  rcases hpl : mkPayload m st.store with _ | pl
  · rw [seqOrdered, applyMutation, hpl]
    exact h
  · rw [seqOrdered, applyMutation, hpl]
    exact seq_bound_pairwise_applied st _ h rfl

theorem seqOrdered_appendApplied (st : SysState) (r : ChangeRecord)
    (h : seqOrdered st) : seqOrdered (appendApplied st r) :=
  seq_bound_pairwise_applied st _ h rfl

theorem seqOrdered_foldl_appendApplied (rs : List ChangeRecord)
    (st : SysState) (h : seqOrdered st) :
    seqOrdered (rs.foldl appendApplied st) := by
  induction rs generalizing st with
  | nil => exact h
  | cons r rest ih =>
    rw [List.foldl_cons]
    exact ih (appendApplied st r) (seqOrdered_appendApplied st r h)

theorem seqOrdered_runOps (ops : List SysOp) (st : SysState)
    (h : seqOrdered st) : seqOrdered (runOps st ops) := by
  induction ops generalizing st with
  | nil => exact h
  | cons op rest ih =>
    rw [runOps, List.foldl_cons]
    match op with
    | .mutate src m =>
      exact ih (applyMutation st src m) (seqOrdered_applyMutation st src m h)
    | .revert w =>
      exact ih (sessionRevert w st) (seqOrdered_foldl_appendApplied _ st h)

/-- C2: for every entity `(table, key)`, folding its Change Records in
ascending `sequence` order (their log order, which is proven strictly
ascending) starting from the empty state reconstructs the entity's
materialized Local Store row, after every sequence of operations
(mutations and reverts) from the empty initial state. -/
theorem log_replay_reconstructs_store (ops : List SysOp)
    (t k : String) :
    (runOps initState ops).store (t, k)
      = entityReplay t k (runOps initState ops).log ∧
    (runOps initState ops).log.Pairwise
      (fun a b => a.sequence < b.sequence) := by
  constructor
  · exact inv_runOps ops initState
      (fun t k => by rw [initState, entityReplay]; rfl) t k
  · exact (seqOrdered_runOps ops initState
      ⟨by intro x hx; simp [initState] at hx, by simp [initState]⟩).2

theorem inverseRecord_sequence (r : ChangeRecord) :
    (inverseRecord r).sequence = r.sequence := rfl

/-- C3: `Session.revert()` visits the selected Change Records in
reverse chronological (descending `sequence`) order and for each emits
exactly the specified inverse operation of the same `(table, key)`;
applying a record's inverse after the record restores the store. -/
theorem revert_reverse_order_exact_inverses (w : Nat) (st : SysState)
    (hord : st.log.Pairwise fun a b => a.sequence < b.sequence) :
    ((revertEmitted w st.log).map ChangeRecord.sequence
      = ((revertSelection w st.log).map ChangeRecord.sequence).reverse) ∧
    (revertEmitted w st.log).Pairwise
      (fun a b => b.sequence < a.sequence) ∧
    (∀ r : ChangeRecord, (inverseRecord r).table = r.table ∧
      (inverseRecord r).key = r.key ∧
      InverseSpec r.payload (inverseRecord r).payload) ∧
    (∀ (s : Store) (m : Mutation) (pl : ChangePayload),
      mkPayload m s = some pl →
      applyPayload (applyPayload s m.table m.key pl) m.table m.key
        (inversePayload pl) = s) := by
  have hsel : (revertSelection w st.log).Pairwise
      (fun a b => a.sequence < b.sequence) :=
    hord.sublist (List.filter_sublist _)
  refine ⟨?_, ?_, ?_, fun s m pl h => mkPayload_cancel s m pl h⟩
  · rw [revertEmitted, List.map_map]
    have hc : ChangeRecord.sequence ∘ inverseRecord
        = ChangeRecord.sequence := funext fun r => rfl
    rw [hc, List.map_reverse]
  · rw [revertEmitted, List.pairwise_map, List.pairwise_reverse]
    exact hsel
  · intro r
    refine ⟨rfl, rfl, ?_⟩
    have hp : (inverseRecord r).payload = inversePayload r.payload := rfl
    rw [hp]
    cases r.payload with
    | created snap => exact ⟨snap, rfl⟩
    | updated mods olds => rfl
    | deleted oldSnap => rfl
    | moved p pos op' opos => rfl
    | copied snap => exact ⟨snap, rfl⟩

/-- Witness for C3 at a one-record log. -/
theorem revert_reverse_order_exact_inverses_witness :
    ((revertEmitted 0
        (SysState.mk (fun _ => none)
          [⟨"contentnode", "n1", ChangePayload.created fun _ => none,
            "local", 0, SyncState.PENDING⟩] 1).log).map
        ChangeRecord.sequence
      = ((revertSelection 0
          (SysState.mk (fun _ => none)
            [⟨"contentnode", "n1", ChangePayload.created fun _ => none,
              "local", 0, SyncState.PENDING⟩] 1).log).map
          ChangeRecord.sequence).reverse) ∧
    InverseSpec
      (ChangeRecord.payload
        ⟨"contentnode", "n1", ChangePayload.created fun _ => none,
          "local", 0, SyncState.PENDING⟩)
      (inverseRecord
        ⟨"contentnode", "n1", ChangePayload.created fun _ => none,
          "local", 0, SyncState.PENDING⟩).payload := by
  have h := revert_reverse_order_exact_inverses 0
    (SysState.mk (fun _ => none)
      [⟨"contentnode", "n1", ChangePayload.created fun _ => none,
        "local", 0, SyncState.PENDING⟩] 1)
    (by simp)
  exact ⟨h.1, (h.2.2.1
    ⟨"contentnode", "n1", ChangePayload.created fun _ => none,
      "local", 0, SyncState.PENDING⟩).2.2⟩

theorem foldl_appendApplied_log (rs : List ChangeRecord) (st : SysState) :
    ∃ l2, (rs.foldl appendApplied st).log = st.log ++ l2 ∧
      l2.map ChangeRecord.source = rs.map ChangeRecord.source := by
  induction rs generalizing st with
  | nil => exact ⟨[], by simp, rfl⟩
  | cons r rest ih =>
    obtain ⟨l2, h1, h2⟩ := ih (appendApplied st r)
    refine ⟨⟨r.table, r.key, r.payload, r.source, st.nextSeq,
      r.syncState⟩ :: l2, ?_, ?_⟩
    · rw [List.foldl_cons, h1]
      simp [appendApplied]
    · simp [h2]

theorem revertEmitted_source (w : Nat) (log : List ChangeRecord) :
    ∀ r ∈ revertEmitted w log, r.source = REVERT_SOURCE := by
  intro r hr
  rw [revertEmitted, List.mem_map] at hr
  obtain ⟨r0, _, hr0⟩ := hr
  rw [← hr0]
  rfl

/-- C4: revert-emitted records carry the `REVERT` source (an ignored
source); `revert()` selects only entries since the watermark with a
non-ignored source; and after a revert, both the revert selection and
the sync-tracked set are unchanged, so a second revert cannot
re-revert records produced by the first. -/
theorem revert_emits_ignored_sources (w : Nat) (st : SysState) :
    (∀ r ∈ revertEmitted w st.log,
      r.source = REVERT_SOURCE ∧ isIgnoredSource r.source = true) ∧
    (∀ r ∈ revertSelection w st.log,
      w ≤ r.sequence ∧ isIgnoredSource r.source = false) ∧
    revertSelection w (sessionRevert w st).log
      = revertSelection w st.log ∧
    syncTracked (sessionRevert w st).log = syncTracked st.log := by
  have hrev : isIgnoredSource REVERT_SOURCE = true := by decide
  have hl2 : ∀ l2 : List ChangeRecord,
      l2.map ChangeRecord.source
        = (revertEmitted w st.log).map ChangeRecord.source →
      ∀ x ∈ l2, x.source = REVERT_SOURCE := by
    intro l2 hmap x hx
    have : x.source ∈ l2.map ChangeRecord.source := List.mem_map_of_mem _ hx
    rw [hmap, List.mem_map] at this
    obtain ⟨r0, hr0, hsrc⟩ := this
    rw [← hsrc, revertEmitted_source w st.log r0 hr0]
  obtain ⟨l2, hlog, hmap⟩ :=
    foldl_appendApplied_log (revertEmitted w st.log) st
  refine ⟨?_, ?_, ?_, ?_⟩
  · intro r hr
    have h1 := revertEmitted_source w st.log r hr
    exact ⟨h1, by rw [h1]; exact hrev⟩
  · intro r hr
    rw [revertSelection, List.mem_filter] at hr
    have h2 := hr.2
    rw [Bool.and_eq_true, Bool.not_eq_true'] at h2
    exact ⟨of_decide_eq_true h2.1, h2.2⟩
  · rw [sessionRevert, hlog, revertSelection, List.filter_append]
    have : List.filter
        (fun r => decide (w ≤ r.sequence) && !isIgnoredSource r.source)
        l2 = [] := by
      rw [List.filter_eq_nil_iff]
      intro x hx
      rw [hl2 l2 hmap x hx]
      simp [hrev]
    rw [this, List.append_nil]
    rfl
  · rw [sessionRevert, hlog, syncTracked, List.filter_append]
    have : List.filter (fun r => !isIgnoredSource r.source) l2 = [] := by
      rw [List.filter_eq_nil_iff]
      intro x hx
      rw [hl2 l2 hmap x hx]
      simp [hrev]
    rw [this, List.append_nil]
    rfl

/-- Witness for C4 at a one-record log. -/
theorem revert_emits_ignored_sources_witness :
    ((inverseRecord
        ⟨"contentnode", "n1", ChangePayload.created fun _ => none,
          "local", 0, SyncState.PENDING⟩).source = REVERT_SOURCE ∧
      isIgnoredSource
        (inverseRecord
          ⟨"contentnode", "n1", ChangePayload.created fun _ => none,
            "local", 0, SyncState.PENDING⟩).source = true) ∧
    revertSelection 0
        (sessionRevert 0
          (SysState.mk (fun _ => none)
            [⟨"contentnode", "n1", ChangePayload.created fun _ => none,
              "local", 0, SyncState.PENDING⟩] 1)).log
      = revertSelection 0
        (SysState.mk (fun _ => none)
          [⟨"contentnode", "n1", ChangePayload.created fun _ => none,
            "local", 0, SyncState.PENDING⟩] 1).log := by
  have hlocal : isIgnoredSource "local" = false := by decide
  have h := revert_emits_ignored_sources 0
    (SysState.mk (fun _ => none)
      [⟨"contentnode", "n1", ChangePayload.created fun _ => none,
        "local", 0, SyncState.PENDING⟩] 1)
  refine ⟨h.1 _ ?_, h.2.2.1⟩
  simp [revertEmitted, revertSelection, List.filter_cons, hlocal]

theorem drainGo_blocked_pending (fails : ChangeRecord → Bool)
    (l : List ChangeRecord) :
    ∀ (blocked : List (String × String)) (i : Nat) (ri : ChangeRecord),
    l[i]? = some ri → ri.entityKey ∈ blocked →
    ri.syncState = SyncState.PENDING →
    (drainGo fails l blocked)[i]? = some ri := by
  induction l with
  | nil =>
    intro blocked i ri hg
    simp at hg
  | cons r rest ih =>
    intro blocked i ri hg hb hp
    cases i with
    | zero =>
      rw [List.getElem?_cons_zero] at hg
      injection hg with hg
      subst hg
      rw [drainGo, if_pos hp, if_pos hb, List.getElem?_cons_zero]
    | succ i' =>
      rw [List.getElem?_cons_succ] at hg
      by_cases h1 : r.syncState = SyncState.PENDING
      · by_cases h2 : r.entityKey ∈ blocked
        · rw [drainGo, if_pos h1, if_pos h2, List.getElem?_cons_succ]
          exact ih blocked i' ri hg hb hp
        · by_cases h3 : fails r
          · rw [drainGo, if_pos h1, if_neg h2, if_pos h3,
              List.getElem?_cons_succ]
            exact ih (r.entityKey :: blocked) i' ri hg
              (List.mem_cons_of_mem _ hb) hp
          · rw [drainGo, if_pos h1, if_neg h2, if_neg h3,
              List.getElem?_cons_succ]
            exact ih blocked i' ri hg hb hp
      · by_cases h4 : r.syncState = SyncState.FAILED
        · rw [drainGo, if_neg h1, if_pos h4, List.getElem?_cons_succ]
          exact ih (r.entityKey :: blocked) i' ri hg
            (List.mem_cons_of_mem _ hb) hp
        · rw [drainGo, if_neg h1, if_neg h4, List.getElem?_cons_succ]
          exact ih blocked i' ri hg hb hp

theorem drainGo_no_reorder (fails : ChangeRecord → Bool)
    (l : List ChangeRecord) :
    ∀ (blocked : List (String × String)) (i j : Nat)
      (ri rj ri' : ChangeRecord), i < j →
    l[i]? = some ri → l[j]? = some rj →
    ri.entityKey = rj.entityKey →
    ri.syncState = SyncState.PENDING →
    rj.syncState = SyncState.PENDING →
    (drainGo fails l blocked)[i]? = some ri' →
    ri'.syncState = SyncState.FAILED →
    (drainGo fails l blocked)[j]? = some rj := by
  induction l with
  | nil =>
    intro blocked i j ri rj ri' _ hg
    simp at hg
  | cons r rest ih =>
    intro blocked i j ri rj ri' hij hgi hgj hent hpi hpj hgi' hfi
    cases i with
    | zero =>
      obtain ⟨j', rfl⟩ : ∃ j', j = j' + 1 := ⟨j - 1, by omega⟩
      rw [List.getElem?_cons_zero] at hgi
      injection hgi with hgi
      subst hgi
      rw [List.getElem?_cons_succ] at hgj
      by_cases h2 : r.entityKey ∈ blocked
      · rw [drainGo, if_pos hpi, if_pos h2, List.getElem?_cons_zero] at hgi'
        injection hgi' with hgi'
        rw [← hgi', hpi] at hfi
        exact absurd hfi (by decide)
      · by_cases h3 : fails r
        · rw [drainGo, if_pos hpi, if_neg h2, if_pos h3,
            List.getElem?_cons_succ]
          exact drainGo_blocked_pending fails rest
            (r.entityKey :: blocked) j' rj hgj
            (by rw [hent]; exact List.mem_cons_self _ _) hpj
        · rw [drainGo, if_pos hpi, if_neg h2, if_neg h3,
            List.getElem?_cons_zero] at hgi'
          injection hgi' with hgi'
          rw [← hgi'] at hfi
          simp at hfi
    | succ i' =>
      obtain ⟨j', rfl⟩ : ∃ j', j = j' + 1 := ⟨j - 1, by omega⟩
      rw [List.getElem?_cons_succ] at hgi hgj
      have hij' : i' < j' := by omega
      by_cases h1 : r.syncState = SyncState.PENDING
      · by_cases h2 : r.entityKey ∈ blocked
        · rw [drainGo, if_pos h1, if_pos h2, List.getElem?_cons_succ]
            at hgi' ⊢
          exact ih blocked i' j' ri rj ri' hij' hgi hgj hent hpi hpj
            hgi' hfi
        · by_cases h3 : fails r
          · rw [drainGo, if_pos h1, if_neg h2, if_pos h3,
              List.getElem?_cons_succ] at hgi' ⊢
            exact ih (r.entityKey :: blocked) i' j' ri rj ri' hij'
              hgi hgj hent hpi hpj hgi' hfi
          · rw [drainGo, if_pos h1, if_neg h2, if_neg h3,
              List.getElem?_cons_succ] at hgi' ⊢
            exact ih blocked i' j' ri rj ri' hij' hgi hgj hent hpi hpj
              hgi' hfi
      · by_cases h4 : r.syncState = SyncState.FAILED
        · rw [drainGo, if_neg h1, if_pos h4, List.getElem?_cons_succ]
            at hgi' ⊢
          exact ih (r.entityKey :: blocked) i' j' ri rj ri' hij'
            hgi hgj hent hpi hpj hgi' hfi
        · rw [drainGo, if_neg h1, if_neg h4, List.getElem?_cons_succ]
            at hgi' ⊢
          exact ih blocked i' j' ri rj ri' hij' hgi hgj hent hpi hpj
            hgi' hfi

/-- C6: the Sync Engine never sends a Change Record for an entity ahead
of an earlier-sequence record of the same entity: when the earlier
record fails in a drain pass, every later record for the same entity
survives unchanged and stays `PENDING` (it is not sent, so it cannot
become `IN_FLIGHT`, `SYNCED`, or `FAILED`). -/
theorem sync_preserves_per_entity_order (fails : ChangeRecord → Bool)
    (log : List ChangeRecord) (i j : Nat) (ri rj ri' : ChangeRecord)
    (hij : i < j) (hgi : log[i]? = some ri) (hgj : log[j]? = some rj)
    (hent : ri.entityKey = rj.entityKey)
    (hpi : ri.syncState = SyncState.PENDING)
    (hpj : rj.syncState = SyncState.PENDING)
    (hgi' : (drain fails log)[i]? = some ri')
    (hfi : ri'.syncState = SyncState.FAILED) :
    (drain fails log)[j]? = some rj ∧
      rj.syncState = SyncState.PENDING :=
  ⟨drainGo_no_reorder fails log [] i j ri rj ri' hij hgi hgj hent
    hpi hpj hgi' hfi, hpj⟩

/-- Witness for C6: two same-entity `PENDING` records, the first forced
to fail; the second stays `PENDING`. -/
theorem sync_preserves_per_entity_order_witness :
    (drain (fun _ => true)
      [⟨"contentnode", "n1", ChangePayload.created fun _ => none,
        "local", 0, SyncState.PENDING⟩,
       ⟨"contentnode", "n1", ChangePayload.updated [] [],
        "local", 1, SyncState.PENDING⟩])[1]?
      = some ⟨"contentnode", "n1", ChangePayload.updated [] [],
        "local", 1, SyncState.PENDING⟩ ∧
    SyncState.PENDING = SyncState.PENDING := by
  have h := sync_preserves_per_entity_order (fun _ => true)
    [⟨"contentnode", "n1", ChangePayload.created fun _ => none,
      "local", 0, SyncState.PENDING⟩,
     ⟨"contentnode", "n1", ChangePayload.updated [] [],
      "local", 1, SyncState.PENDING⟩] 0 1
    ⟨"contentnode", "n1", ChangePayload.created fun _ => none,
      "local", 0, SyncState.PENDING⟩
    ⟨"contentnode", "n1", ChangePayload.updated [] [],
      "local", 1, SyncState.PENDING⟩
    ⟨"contentnode", "n1", ChangePayload.created fun _ => none,
      "local", 0, SyncState.FAILED⟩
    (by decide) rfl rfl rfl rfl rfl ?_ rfl
  · exact ⟨h.1, rfl⟩
  · rw [drain, drainGo]
    norm_num [List.getElem?_cons_zero]

theorem countRows_map_upsert (db : List (String × Entity))
    (key : String) (snap : Entity) :
    countRows (db.map fun row => if row.1 = key then (key, snap) else row)
      key = countRows db key := by
  induction db with
  | nil => rfl
  | cons row rest ih =>
    by_cases h : row.1 = key
    · simp only [countRows, List.filter_cons] at ih ⊢
      rw [List.map_cons, if_pos h, List.filter_cons]
      simp [h, ih]
    · simp only [countRows, List.filter_cons] at ih ⊢
      rw [List.map_cons, if_neg h, List.filter_cons]
      simp [h, ih]

theorem countRows_zero_of_any_false (db : List (String × Entity))
    (key : String) (h : db.any (fun row => row.1 = key) = false) :
    countRows db key = 0 := by
  rw [countRows]
  have hnil : db.filter (fun row => decide (row.1 = key)) = [] := by
    rw [List.filter_eq_nil_iff]
    intro x hx hk
    have : db.any (fun row => row.1 = key) = true :=
      List.any_eq_true.mpr ⟨x, hx, hk⟩
    rw [h] at this
    exact Bool.false_ne_true this
  rw [hnil]
  rfl

theorem countRows_pos_of_any_true (db : List (String × Entity))
    (key : String) (h : db.any (fun row => row.1 = key) = true) :
    0 < countRows db key := by
  obtain ⟨x, hx, hk⟩ := List.any_eq_true.mp h
  have hmem : x ∈ db.filter fun row => decide (row.1 = key) :=
    List.mem_filter.mpr ⟨hx, hk⟩
  rw [countRows]
  exact List.length_pos_of_mem hmem

theorem serverCreate_rows_key (db : List (String × Entity))
    (key : String) (snap : Entity) :
    ∀ row ∈ serverCreate db key snap, row.1 = key → row = (key, snap) := by
  rw [serverCreate]
  by_cases hany : db.any (fun row => row.1 = key) = true
  · rw [if_pos hany]
    intro row hrow hk
    rw [List.mem_map] at hrow
    obtain ⟨row0, _, heq⟩ := hrow
    by_cases h0 : row0.1 = key
    · rw [if_pos h0] at heq
      exact heq.symm
    · rw [if_neg h0] at heq
      rw [← heq] at hk
      exact absurd hk h0
  · rw [if_neg hany]
    intro row hrow hk
    rcases List.mem_append.mp hrow with h | h
    · have := List.any_eq_false.mp (Bool.not_eq_true _ ▸ hany) row h
      simp at this
      exact absurd hk this
    · rw [List.mem_singleton] at h
      exact h

theorem serverCreate_mem_key (db : List (String × Entity))
    (key : String) (snap : Entity) :
    (key, snap) ∈ serverCreate db key snap := by
  rw [serverCreate]
  by_cases hany : db.any (fun row => row.1 = key) = true
  · rw [if_pos hany]
    obtain ⟨x, hx, hk⟩ := List.any_eq_true.mp hany
    have hk' : x.1 = key := of_decide_eq_true hk
    have h2 := List.mem_map_of_mem
      (fun row => if row.1 = key then (key, snap) else row) hx
    simp only [if_pos hk'] at h2
    exact h2
  · rw [if_neg hany]
    exact List.mem_append.mpr (Or.inr (List.mem_singleton.mpr rfl))

theorem serverCreate_idem (db : List (String × Entity))
    (key : String) (snap : Entity) :
    serverCreate (serverCreate db key snap) key snap
      = serverCreate db key snap := by
  have hany : (serverCreate db key snap).any
      (fun row => row.1 = key) = true :=
    List.any_eq_true.mpr ⟨(key, snap), serverCreate_mem_key db key snap,
      by simp⟩
  conv_lhs => rw [serverCreate]
  rw [if_pos hany]
  have hfix : ∀ row ∈ serverCreate db key snap,
      (if row.1 = key then (key, snap) else row) = row := by
    intro row hrow
    by_cases hk : row.1 = key
    · rw [if_pos hk, serverCreate_rows_key db key snap row hrow hk]
    · rw [if_neg hk]
  calc (serverCreate db key snap).map
        (fun row => if row.1 = key then (key, snap) else row)
      = (serverCreate db key snap).map id := List.map_congr_left hfix
    _ = serverCreate db key snap := List.map_id _

theorem serverCreate_count (db : List (String × Entity))
    (key : String) (snap : Entity) (hle : countRows db key ≤ 1) :
    countRows (serverCreate db key snap) key = 1 := by
  rw [serverCreate]
  by_cases hany : db.any (fun row => row.1 = key) = true
  · rw [if_pos hany, countRows_map_upsert]
    have := countRows_pos_of_any_true db key hany
    omega
  · rw [if_neg hany, countRows, List.filter_append]
    have h0 := countRows_zero_of_any_false db key
      (Bool.not_eq_true _ ▸ hany)
    rw [countRows] at h0
    rw [List.length_append, h0]
    simp

/-- C7: replaying the same `CREATED` or `COPIED` Change Record against
the Remote API twice produces exactly one entity server-side: the
second replay is a no-op (duplicate-id create is an upsert on the
client-pre-assigned stable id), and exactly one row holds the record's
key afterwards. -/
theorem created_replay_idempotent (db : List (String × Entity))
    (r : ChangeRecord) (hwf : ∀ k, countRows db k ≤ 1)
    (hty : r.type = ChangeType.CREATED ∨ r.type = ChangeType.COPIED) :
    serverReplay (serverReplay db r) r = serverReplay db r ∧
    countRows (serverReplay db r) r.key = 1 := by
  rcases hp : r.payload with snap | ⟨mods, olds⟩ | snap | ⟨p, pos, op', opos⟩ | snap
  · simp only [serverReplay, hp]
    exact ⟨serverCreate_idem db r.key snap,
      serverCreate_count db r.key snap (hwf r.key)⟩
  · simp only [ChangeRecord.type, hp] at hty
    rcases hty with h | h <;> exact absurd h (by decide)
  · simp only [ChangeRecord.type, hp] at hty
    rcases hty with h | h <;> exact absurd h (by decide)
  · simp only [ChangeRecord.type, hp] at hty
    rcases hty with h | h <;> exact absurd h (by decide)
  · simp only [serverReplay, hp]
    exact ⟨serverCreate_idem db r.key snap,
      serverCreate_count db r.key snap (hwf r.key)⟩

/-- Witness for C7: replaying a concrete `CREATED` record twice against
the empty server. -/
theorem created_replay_idempotent_witness :
    serverReplay
        (serverReplay []
          ⟨"contentnode", "n1", ChangePayload.created fun _ => none,
            "local", 0, SyncState.PENDING⟩)
        ⟨"contentnode", "n1", ChangePayload.created fun _ => none,
          "local", 0, SyncState.PENDING⟩
      = serverReplay []
        ⟨"contentnode", "n1", ChangePayload.created fun _ => none,
          "local", 0, SyncState.PENDING⟩ ∧
    countRows
        (serverReplay []
          ⟨"contentnode", "n1", ChangePayload.created fun _ => none,
            "local", 0, SyncState.PENDING⟩) "n1" = 1 := by
  exact created_replay_idempotent []
    ⟨"contentnode", "n1", ChangePayload.created fun _ => none,
      "local", 0, SyncState.PENDING⟩
    (by intro k; simp [countRows])
    (Or.inl rfl)

/-- C8: each tracked mutation (remove, copy-to-clipboard, duplicate)
exposes revert to its caller as a zero-argument operation: every undo
or cancel affordance callback takes only the unit argument and performs
exactly the session's revert, with no further parameters. -/
theorem tracked_mutations_expose_zero_arg_revert (ct : ChangeTracker)
    (u : Unit) (st : SysState) :
    removeNodeUndo ct u st = sessionRevert ct.watermark st ∧
    copyToClipboardCancel ct u st = sessionRevert ct.watermark st ∧
    copyToClipboardUndo ct u st = sessionRevert ct.watermark st ∧
    duplicateNodeCancel ct u st = sessionRevert ct.watermark st ∧
    duplicateNodeUndo ct u st = sessionRevert ct.watermark st :=
  ⟨rfl, rfl, rfl, rfl, rfl⟩

end Studio
